import Mathlib

/-!
Verification of the chat-completion orchestration backend.

The definitions below are a shallow embedding of the two source files of the
repository: `app.py` (request shaping, buffered and streaming completion
orchestration, tool-call accumulation, history routes) and
`backend/history/cosmosdbservice.py` (the CosmosDB conversation store).
Python dicts are modelled as association lists in insertion order, machine
state as explicit records, awaited store/network calls as explicit state
passing, and Python exceptions as `Except`.
-/

namespace ChatApp

/-! ## Association lists modelling Python dicts

`lget` is `d.get(k)` / `d[k]` (first entry wins; dict keys are unique in
Python, and `lset` keeps them unique when they start unique: it replaces the
first entry with the key in place, else appends, matching `d[k] = v`. -/

def lget {α : Type} (k : String) : List (String × α) → Option α
  | [] => none
  | (k', v) :: rest => if k' == k then some v else lget k rest

def lset {α : Type} (k : String) (v : α) : List (String × α) → List (String × α)
  | [] => [(k, v)]
  | (k', v') :: rest => if k' == k then (k, v) :: rest else (k', v') :: lset k v rest

theorem lget_lset_self {α : Type} (k : String) (v : α) (l : List (String × α)) :
    lget k (lset k v l) = some v := by
  induction l with
  | nil => simp [lget, lset]
  | cons kv rest ih =>
    by_cases h : kv.1 == k
    · simp [lset, h, lget]
    · simp only [lset]
      rw [show (kv.1 == k) = false by simpa using h]
      simpa [lget, show (kv.1 == k) = false by simpa using h] using ih

theorem lget_lset_ne {α : Type} (k k' : String) (v : α) (l : List (String × α))
    (h : k ≠ k') : lget k (lset k' v l) = lget k l := by
  induction l with
  | nil => simp [lget, lset, h, Ne.symm h]
  | cons kv rest ih =>
    by_cases hk : kv.1 == k'
    · have hkv : kv.1 = k' := by simpa using hk
      simp [lset, hk, lget, hkv, Ne.symm h, h]
    · simp only [lset]
      rw [show (kv.1 == k') = false by simpa using hk]
      by_cases h2 : kv.1 == k
      · simp [lget, h2]
      · simp only [lget]
        rw [show (kv.1 == k) = false by simpa using h2]
        simpa using ih

theorem mem_of_contains (l : List String) (a : String) (h : l.contains a = true) :
    a ∈ l := by
  induction l with
  | nil => simp [List.contains] at h
  | cons x rest ih =>
    rcases (by simpa [List.contains] using h : a = x ∨ rest.contains a = true) with h1 | h1
    · simp [h1]
    · exact List.mem_cons_of_mem _ (ih h1)

/-! ## `sanitize_json_content` (`app.py` lines 1257-1280)

Strings are modelled through their character lists.  `content` is `Option
String`: `none` models a Python `None` argument (the route passes
`msg.get("content")`).  The non-string fallback branch of the Python code is
not reachable for string-typed content and is not modelled. -/

def sanitizeKeep (ch : Char) : Bool :=
  !(decide (ch.toNat < 32) && !(ch == '\r' || ch == '\n' || ch == '\t'))

def sanitize_json_content (content : Option String) : String :=
  match content with
  | none => ""
  | some str => String.mk (str.data.filter sanitizeKeep)

/-- Characters allowed in a transmitted payload by the (amended) claim:
anything printable, plus carriage return, newline and tab. -/
def transmittedCharOk (ch : Char) : Bool :=
  decide (32 ≤ ch.toNat) || ch == '\r' || ch == '\n' || ch == '\t'

theorem sanitizeKeep_ok (ch : Char) (h : sanitizeKeep ch = true) :
    transmittedCharOk ch = true := by
  by_cases h32 : ch.toNat < 32
  · simp [sanitizeKeep, h32] at h
    simp only [transmittedCharOk]
    simp
    tauto
  · simp [transmittedCharOk, Nat.le_of_not_lt h32]

theorem sanitize_all_ok (content : Option String) :
    (sanitize_json_content content).data.all transmittedCharOk = true := by
  match content with
  | none => rfl
  | some str =>
    simp only [sanitize_json_content, List.all_eq_true]
    intro ch hch
    exact sanitizeKeep_ok ch (List.of_mem_filter hch)

/-! ## Store documents

A CosmosDB item is a JSON document: an association list of string keys to
values.  The values the code reads and writes are strings or `null` (a
message's `content` may be `None`). -/

inductive DValue : Type
  | s (v : String)
  | null
deriving DecidableEq, Repr

abbrev Doc : Type := List (String × DValue)

abbrev Store : Type := List Doc

/-- `msg.get("content")` fed to `sanitize_json_content`: a missing key and a
stored JSON `null` both reach the sanitizer as Python `None`. -/
def sanitizeDV (v : Option DValue) : String :=
  match v with
  | some (DValue.s str) => sanitize_json_content (some str)
  | some DValue.null => sanitize_json_content none
  | none => sanitize_json_content none

/-- The message-formatting loop of the `/history/read` route
(`app.py` lines 1339-1364): each stored message becomes
`{id, role, content, createdAt, feedback}` with sanitized content and
feedback; a message missing `id`, `role` or `createdAt` raises `KeyError`
and is replaced by the placeholder message (lines 1354-1364), whose id uses
the number of messages formatted so far and whose `createdAt` falls back to
the current time `now`. -/
def formatReadMessage (now : String) (i : Nat) (msg : Doc) : Doc :=
  match lget "id" msg, lget "role" msg, lget "createdAt" msg with
  | some idv, some rolev, some cav =>
    [("id", idv), ("role", rolev),
     ("content", DValue.s (sanitizeDV (lget "content" msg))),
     ("createdAt", cav),
     ("feedback", DValue.s (sanitizeDV (some ((lget "feedback" msg).getD (DValue.s "")))))]
  | _, _, _ =>
    [("id", (lget "id" msg).getD (DValue.s ("error-" ++ toString i))),
     ("role", (lget "role" msg).getD (DValue.s "system")),
     ("content", DValue.s "Error loading this message"),
     ("createdAt", (lget "createdAt" msg).getD (DValue.s now)),
     ("feedback", DValue.s "")]

def formatReadMessages (now : String) (msgs : List Doc) : List Doc :=
  msgs.enum.map (fun p => formatReadMessage now p.1 p.2)

/-- The transmitted `content` value of one formatted message is free of
control characters other than CR, LF and tab. -/
def contentSanitized (fm : Doc) : Bool :=
  match lget "content" fm with
  | some (DValue.s str) => str.data.all transmittedCharOk
  | _ => false

theorem sanitizeDV_ok (v : Option DValue) :
    (sanitizeDV v).data.all transmittedCharOk = true := by
  match v with
  | some (DValue.s str) => exact sanitize_all_ok (some str)
  | some DValue.null => exact sanitize_all_ok none
  | none => exact sanitize_all_ok none

theorem lget_content_build (idv rolev cv cav fv : DValue) :
    lget "content" [("id", idv), ("role", rolev), ("content", cv),
      ("createdAt", cav), ("feedback", fv)] = some cv := by
  simp only [lget]
  rw [show ("id" == "content") = false by decide,
      show ("role" == "content") = false by decide,
      show ("content" == "content") = true by decide]
  simp

theorem contentSanitized_build (idv rolev cav fv : DValue) (c : String)
    (hc : c.data.all transmittedCharOk = true) :
    contentSanitized [("id", idv), ("role", rolev), ("content", DValue.s c),
      ("createdAt", cav), ("feedback", fv)] = true := by
  unfold contentSanitized
  rw [lget_content_build]
  exact hc

theorem formatReadMessage_content_ok (now : String) (i : Nat) (msg : Doc) :
    contentSanitized (formatReadMessage now i msg) = true := by
  unfold formatReadMessage
  match h1 : lget "id" msg, h2 : lget "role" msg, h3 : lget "createdAt" msg with
  | some idv, some rolev, some cav =>
    exact contentSanitized_build _ _ _ _ _ (sanitizeDV_ok _)
  | none, _, _ =>
    exact contentSanitized_build _ _ _ _ _ (by decide)
  | some _, none, _ =>
    exact contentSanitized_build _ _ _ _ _ (by decide)
  | some _, some _, none =>
    exact contentSanitized_build _ _ _ _ _ (by decide)

/-- C9 (counterexample): the claim states that every control character other
than newline and tab is stripped; the code also keeps carriage return
(`'\r'`, code point 13), as the concrete content `"a\rb"` shows. -/
theorem c9_counterexample :
    sanitize_json_content (some "a\rb") = "a\rb" ∧
      '\r'.toNat < 32 ∧ '\r' ≠ '\n' ∧ '\r' ≠ '\t' := by
  refine ⟨?_, by decide, by decide, by decide⟩
  rfl

/-- C9 (amended): every message content returned by the read-conversation
formatting contains no control characters (code points below 32) other than
carriage return, newline and tab — every other control character is stripped
before transmission. -/
theorem c9_read_content_sanitized (now : String) (msgs : List Doc) :
    (formatReadMessages now msgs).all contentSanitized = true := by
  simp only [formatReadMessages, List.all_eq_true]
  intro fm hfm
  rcases List.mem_map.mp hfm with ⟨p, _, hp⟩
  rw [← hp]
  exact formatReadMessage_content_ok now p.1 p.2

/-! ## The conversation store (`backend/history/cosmosdbservice.py`)

The container holds conversation and message documents keyed by `id` (the
code always passes the item id as partition key as well).  `upsert_item`
replaces the document with the same `id` or inserts a new one;
`read_item` raises `CosmosResourceNotFoundError` when no document has the
id, modelled as `none`; `delete_item` removes the document.  Query results
are returned in store order (the `ORDER BY` clauses are not needed by the
properties proved here). -/

def docId (d : Doc) : Option DValue := lget "id" d

def docIdIs (cid : String) (d : Doc) : Bool := docId d == some (DValue.s cid)

def readItem (st : Store) (cid : String) : Option Doc :=
  st.find? (docIdIs cid)

def upsertItem : Store → Doc → Store
  | [], d => [d]
  | x :: rest, d => if docId x == docId d then d :: rest else x :: upsertItem rest d

def removeItem (st : Store) (cid : String) : Store :=
  st.filter (fun d => !docIdIs cid d)

/-- The filter of `get_conversation`'s query (lines 134-154): id, type
`conversation` and the requesting user's id. -/
def isConversationOf (user_id cid : String) (d : Doc) : Bool :=
  docIdIs cid d && (lget "type" d == some (DValue.s "conversation"))
    && (lget "userId" d == some (DValue.s user_id))

def get_conversation (st : Store) (user_id cid : String) : Option Doc :=
  st.find? (isConversationOf user_id cid)

/-- The filter of `get_messages`' query (lines 208-224). -/
def isMessageOf (user_id cid : String) (d : Doc) : Bool :=
  (lget "conversationId" d == some (DValue.s cid))
    && (lget "type" d == some (DValue.s "message"))
    && (lget "userId" d == some (DValue.s user_id))

def get_messages (st : Store) (user_id cid : String) : List Doc :=
  st.filter (isMessageOf user_id cid)

/-- The message document built by `create_message` (lines 157-169):
the fixed fields, `role` and `content` copied from the input message, and
`feedback` initialised to the empty string when feedback is enabled. -/
def createdMessageDoc (enable_message_feedback : Bool)
    (uuidArg conversation_id user_id : String) (rolev contentv : DValue)
    (now : String) : Doc :=
  [("id", DValue.s uuidArg),
   ("type", DValue.s "message"),
   ("userId", DValue.s user_id),
   ("createdAt", DValue.s now),
   ("updatedAt", DValue.s now),
   ("conversationId", DValue.s conversation_id),
   ("role", rolev),
   ("content", contentv)]
  ++ (if enable_message_feedback then [("feedback", DValue.s "")] else [])

inductive CMResult : Type
  | ok (m : Doc)
  | convNotFound
deriving DecidableEq, Repr

/-- `create_message` (lines 156-181): write the message, then read the
parent conversation (scoped to the user), set its `updatedAt` to the
message's `createdAt` and upsert it back.  A missing `role` or `content`
key raises `KeyError`; a missing parent conversation returns the string
`"Conversation not found"`, modelled as `CMResult.convNotFound` (the
message stays written in that case). -/
def create_message (enable_message_feedback : Bool) (st : Store)
    (uuidArg conversation_id user_id : String) (input_message : Doc)
    (now : String) : Except String (CMResult × Store) :=
  match lget "role" input_message, lget "content" input_message with
  | some rolev, some contentv =>
    let message := createdMessageDoc enable_message_feedback uuidArg
      conversation_id user_id rolev contentv now
    let st1 := upsertItem st message
    match get_conversation st1 user_id conversation_id with
    | none => Except.ok (CMResult.convNotFound, st1)
    | some conversation =>
      let conversation' :=
        match lget "createdAt" message with
        | some ts => lset "updatedAt" ts conversation
        | none => conversation
      Except.ok (CMResult.ok message, upsertItem st1 conversation')
  | _, _ => Except.error "KeyError"

/-- `update_message_feedback` (lines 183-206): reads the message by id alone
(the `user_id` parameter is never used), sets `feedback` and `updatedAt`,
and upserts.  Returns `none` (Python `False`) when the item is absent. -/
def update_message_feedback (st : Store) (user_id message_id feedback now : String) :
    Option Doc × Store :=
  match readItem st message_id with
  | some message =>
    let message' := lset "updatedAt" (DValue.s now)
      (lset "feedback" (DValue.s feedback) message)
    (some message', upsertItem st message')
  | none => (none, st)

inductive DelResult : Type
  | respNone
  | success
deriving DecidableEq, Repr

/-- `delete_conversation` (lines 85-99): read the conversation by id; if
present delete it and return the delete response (the Cosmos SDK returns
`None`, modelled `respNone`); a `CosmosResourceNotFoundError` is treated as
already deleted and returns `True` (`success`). -/
def delete_conversation_db (st : Store) (user_id conversation_id : String) :
    DelResult × Store :=
  match readItem st conversation_id with
  | some _ => (DelResult.respNone, removeItem st conversation_id)
  | none => (DelResult.success, st)

/-- `delete_messages` (lines 102-114): list the conversation's messages for
the user and delete each by its own id; returns the list of delete
responses, or Python `None` when there were no messages. -/
def delete_messages (st : Store) (conversation_id user_id : String) :
    Option (List Unit) × Store :=
  let msgs := get_messages st user_id conversation_id
  if msgs ≠ [] then
    (some (msgs.map (fun _ => ())),
     msgs.foldl (fun s m =>
       match lget "id" m with
       | some (DValue.s i) => removeItem s i
       | _ => s) st)
  else (none, st)

/-! ## History routes (`app.py`) -/

/-- The `/history/message_feedback` route (`app.py` lines 1043-1188).
Missing `message_id` or `message_feedback` give 400.  Lines 1064-1112 only
read the store for logging and do not affect the outcome.  A truthy update
result gives 200; a falsy one 404.  The 403/404 branches at lines
1139-1184 require `update_message_feedback` to raise, which it never does
(it catches its own exceptions), so they are unreachable. -/
def update_message_route (st : Store) (user_id message_id feedback now : String) :
    Nat × Store :=
  if message_id = "" then (400, st)
  else if feedback = "" then (400, st)
  else
    match update_message_feedback st user_id message_id feedback now with
    | (some _, st') => (200, st')
    | (none, st') => (404, st')

/-- The `/history/delete` route (`app.py` lines 1191-1231): requires a
conversation id, deletes the conversation's messages, then the conversation
record, and returns 200 regardless of whether the conversation existed. -/
def delete_conversation_route (st : Store) (user_id conversation_id : String) :
    Nat × Store :=
  if conversation_id = "" then (400, st)
  else
    let r1 := delete_messages st conversation_id user_id
    let r2 := delete_conversation_db r1.2 user_id conversation_id
    (200, r2.2)

/-! ## Store lemmas -/

theorem find_upsert (st : Store) (d : Doc) (p : Doc → Bool) (conv : Doc)
    (hfind : st.find? p = some conv)
    (hid : ∀ x, p x = true → docId x = docId d)
    (hp : p d = true) :
    (upsertItem st d).find? p = some d := by
  induction st with
  | nil => simp at hfind
  | cons x rest ih =>
    by_cases hx : docId x == docId d
    · simp only [upsertItem, hx, if_true]
      exact List.find?_cons_of_pos _ hp
    · have hxne : docId x ≠ docId d := by simpa using hx
      have hpx : p x = false := by
        by_contra hc
        exact hxne (hid x (by simpa using hc))
      simp only [upsertItem]
      rw [show (docId x == docId d) = false by simpa using hx]
      simp only [Bool.false_eq_true, if_false]
      rw [List.find?_cons_of_neg _ (by simp [hpx])]
      rw [List.find?_cons_of_neg _ (by simp [hpx])] at hfind
      exact ih hfind

theorem readItem_upsert_self (st : Store) (d : Doc) (u : String)
    (hd : docId d = some (DValue.s u)) :
    readItem (upsertItem st d) u = some d := by
  induction st with
  | nil =>
    simp only [upsertItem, readItem]
    exact List.find?_cons_of_pos _ (by simp [docIdIs, hd])
  | cons x rest ih =>
    by_cases hx : docId x == docId d
    · simp only [upsertItem, hx, if_true, readItem]
      exact List.find?_cons_of_pos _ (by simp [docIdIs, hd])
    · have hxne : docId x ≠ docId d := by simpa using hx
      simp only [upsertItem]
      rw [show (docId x == docId d) = false by simpa using hx]
      simp only [Bool.false_eq_true, if_false, readItem]
      rw [List.find?_cons_of_neg _ (by simp [docIdIs]; intro hc; exact hxne (by rw [hc, hd]))]
      exact ih

theorem readItem_upsert_ne (st : Store) (d : Doc) (u : String)
    (hd : docId d ≠ some (DValue.s u)) :
    readItem (upsertItem st d) u = readItem st u := by
  induction st with
  | nil =>
    simp only [upsertItem, readItem]
    rw [List.find?_cons_of_neg _ (by simp [docIdIs]; exact hd)]
  | cons x rest ih =>
    by_cases hx : docId x == docId d
    · have hxd : docId x = docId d := by simpa using hx
      simp only [upsertItem, hx, if_true, readItem]
      rw [List.find?_cons_of_neg _ (by simp [docIdIs]; exact hd)]
      rw [List.find?_cons_of_neg _ (by simp [docIdIs]; rw [hxd]; exact hd)]
    · simp only [upsertItem]
      rw [show (docId x == docId d) = false by simpa using hx]
      simp only [Bool.false_eq_true, if_false, readItem]
      by_cases hxu : docIdIs u x
      · rw [List.find?_cons_of_pos _ hxu, List.find?_cons_of_pos _ hxu]
      · rw [List.find?_cons_of_neg _ (by simpa using hxu),
            List.find?_cons_of_neg _ (by simpa using hxu)]
        exact ih

theorem lget_eq_none_of_not_mem {α : Type} (k : String) (l : List (String × α))
    (h : k ∉ l.map Prod.fst) : lget k l = none := by
  induction l with
  | nil => rfl
  | cons kv rest ih =>
    have h1 : kv.1 ≠ k := by
      intro hc; exact h (by simp [hc])
    simp only [lget]
    rw [show (kv.1 == k) = false by simpa using h1]
    simp only [Bool.false_eq_true, if_false]
    exact ih (fun hc => h (List.mem_cons_of_mem _ hc))

theorem createdMessageDoc_keys (ef : Bool) (u cid uid : String)
    (rv cv : DValue) (now : String) :
    (createdMessageDoc ef u cid uid rv cv now).map Prod.fst =
      ["id", "type", "userId", "createdAt", "updatedAt", "conversationId",
       "role", "content"] ++ (if ef then ["feedback"] else []) := by
  cases ef <;> simp [createdMessageDoc]

theorem createdMessageDoc_id (ef : Bool) (u cid uid : String)
    (rv cv : DValue) (now : String) :
    lget "id" (createdMessageDoc ef u cid uid rv cv now) = some (DValue.s u) := by
  cases ef <;> simp [createdMessageDoc, lget]

theorem createdMessageDoc_createdAt (ef : Bool) (u cid uid : String)
    (rv cv : DValue) (now : String) :
    lget "createdAt" (createdMessageDoc ef u cid uid rv cv now)
      = some (DValue.s now) := by
  cases ef <;> simp [createdMessageDoc, lget]

/-! ## C3: every successful message append re-establishes
`conversation.updatedAt = message.createdAt` -/

/-- C3: for every conversation and every message append that completes
successfully (`create_message` returns the written message rather than an
error or "Conversation not found"), the parent conversation record read
back from the resulting store has `updatedAt` equal to the `createdAt` of
the message just written. -/
theorem c3_append_sets_conversation_updatedAt (ef : Bool) (st : Store)
    (u cid uid : String) (input : Doc) (now : String) (m : Doc) (st' : Store)
    (h : create_message ef st u cid uid input now
      = Except.ok (CMResult.ok m, st')) :
    lget "createdAt" m = some (DValue.s now) ∧
    ∃ c, get_conversation st' uid cid = some c ∧
      lget "updatedAt" c = lget "createdAt" m := by
  cases hrole : lget "role" input with
  | none => simp [create_message, hrole] at h
  | some rv =>
  cases hcont : lget "content" input with
  | none => simp [create_message, hrole, hcont] at h
  | some cv =>
  simp only [create_message, hrole, hcont] at h
  cases hconv : get_conversation
      (upsertItem st (createdMessageDoc ef u cid uid rv cv now)) uid cid with
  | none => simp [hconv] at h
  | some conversation =>
    rw [hconv] at h
    simp only [Except.ok.injEq, Prod.mk.injEq, CMResult.ok.injEq] at h
    obtain ⟨hm, hst⟩ := h
    have hmsg : m = createdMessageDoc ef u cid uid rv cv now := hm.symm
    have hca : lget "createdAt" m = some (DValue.s now) := by
      rw [hmsg]; exact createdMessageDoc_createdAt ef u cid uid rv cv now
    refine ⟨hca, ?_⟩
    have hpc : isConversationOf uid cid conversation = true :=
      List.find?_some hconv
    have hcid : lget "id" conversation = some (DValue.s cid) := by
      have := hpc
      simp only [isConversationOf, docIdIs, docId, Bool.and_eq_true,
        beq_iff_eq] at this
      exact this.1.1
    set conversation' :=
      match lget "createdAt" (createdMessageDoc ef u cid uid rv cv now) with
      | some ts => lset "updatedAt" ts conversation
      | none => conversation with hcdef
    have hc'eq : conversation' = lset "updatedAt" (DValue.s now) conversation := by
      rw [hcdef, createdMessageDoc_createdAt]
    have hid' : docId conversation' = some (DValue.s cid) := by
      rw [hc'eq]
      show lget "id" (lset "updatedAt" (DValue.s now) conversation)
        = some (DValue.s cid)
      rw [lget_lset_ne "id" "updatedAt" _ _ (by decide)]
      exact hcid
    have hp' : isConversationOf uid cid conversation' = true := by
      rw [hc'eq]
      have h2 : lget "type" (lset "updatedAt" (DValue.s now) conversation)
          = lget "type" conversation :=
        lget_lset_ne "type" "updatedAt" _ _ (by decide)
      have h3 : lget "userId" (lset "updatedAt" (DValue.s now) conversation)
          = lget "userId" conversation :=
        lget_lset_ne "userId" "updatedAt" _ _ (by decide)
      have hpc' := hpc
      simp only [isConversationOf, docIdIs, docId, Bool.and_eq_true,
        beq_iff_eq] at hpc' ⊢
      rw [lget_lset_ne "id" "updatedAt" _ _ (by decide), h2, h3]
      exact hpc'
    refine ⟨conversation', ?_, ?_⟩
    · rw [← hst]
      exact find_upsert _ conversation' (isConversationOf uid cid) conversation
        hconv
        (fun x hx => by
          have : lget "id" x = some (DValue.s cid) := by
            simp only [isConversationOf, docIdIs, docId, Bool.and_eq_true,
              beq_iff_eq] at hx
            exact hx.1.1
          show docId x = docId conversation'
          rw [hid']; exact this)
        hp'
    · rw [hca, hc'eq, lget_lset_self]

def sampleConversation : Doc :=
  [("id", DValue.s "c1"), ("type", DValue.s "conversation"),
   ("userId", DValue.s "alice"), ("title", DValue.s "greeting"),
   ("createdAt", DValue.s "t0"), ("updatedAt", DValue.s "t0")]

def sampleUserInput : Doc :=
  [("role", DValue.s "user"), ("content", DValue.s "hi"),
   ("name", DValue.s "n"), ("function_call", DValue.s "fc"),
   ("context", DValue.s "ctx"), ("createdAt", DValue.s "caller-supplied")]

/-- C3 witness at a concrete store, conversation and message. -/
theorem c3_witness :
    lget "createdAt" (createdMessageDoc false "m1" "c1" "alice"
        (DValue.s "user") (DValue.s "hi") "t1") = some (DValue.s "t1") ∧
    ∃ c, get_conversation
        (upsertItem (upsertItem [sampleConversation]
            (createdMessageDoc false "m1" "c1" "alice"
              (DValue.s "user") (DValue.s "hi") "t1"))
          (lset "updatedAt" (DValue.s "t1") sampleConversation))
        "alice" "c1" = some c ∧
      lget "updatedAt" c = lget "createdAt" (createdMessageDoc false "m1" "c1"
        "alice" (DValue.s "user") (DValue.s "hi") "t1") :=
  c3_append_sets_conversation_updatedAt false [sampleConversation] "m1" "c1"
    "alice" sampleUserInput "t1"
    (createdMessageDoc false "m1" "c1" "alice" (DValue.s "user")
      (DValue.s "hi") "t1")
    (upsertItem (upsertItem [sampleConversation]
        (createdMessageDoc false "m1" "c1" "alice" (DValue.s "user")
          (DValue.s "hi") "t1"))
      (lset "updatedAt" (DValue.s "t1") sampleConversation))
    (by rfl)

/-! ## C10: the persisted message record holds exactly the fixed fields -/

/-- C10: for every input message, the record persisted by `create_message`
is exactly `createdMessageDoc`: its fields are `id`, `type`, `userId`,
`createdAt`, `updatedAt`, `conversationId`, `role`, `content` (plus
`feedback` initialised to `""` when feedback is enabled), `role` and
`content` are copied from the input, and every other input field —
`name`, `function_call`, `context`, caller-supplied timestamps — is
absent from the persisted record, whose timestamps are the server-side
`now`. -/
theorem c10_persisted_message_fields (ef : Bool) (st : Store)
    (u cid uid : String) (input : Doc) (now : String) (rv cv : DValue)
    (res : CMResult) (st' : Store)
    (hrole : lget "role" input = some rv)
    (hcont : lget "content" input = some cv)
    (hne : u ≠ cid)
    (h : create_message ef st u cid uid input now = Except.ok (res, st')) :
    readItem st' u = some (createdMessageDoc ef u cid uid rv cv now) ∧
    (createdMessageDoc ef u cid uid rv cv now).map Prod.fst =
      ["id", "type", "userId", "createdAt", "updatedAt", "conversationId",
       "role", "content"] ++ (if ef then ["feedback"] else []) ∧
    lget "name" (createdMessageDoc ef u cid uid rv cv now) = none ∧
    lget "function_call" (createdMessageDoc ef u cid uid rv cv now) = none ∧
    lget "context" (createdMessageDoc ef u cid uid rv cv now) = none ∧
    lget "createdAt" (createdMessageDoc ef u cid uid rv cv now)
      = some (DValue.s now) ∧
    lget "updatedAt" (createdMessageDoc ef u cid uid rv cv now)
      = some (DValue.s now) ∧
    lget "role" (createdMessageDoc ef u cid uid rv cv now) = some rv ∧
    lget "content" (createdMessageDoc ef u cid uid rv cv now) = some cv := by
  have hmsgid : docId (createdMessageDoc ef u cid uid rv cv now)
      = some (DValue.s u) := createdMessageDoc_id ef u cid uid rv cv now
  refine ⟨?_, createdMessageDoc_keys ef u cid uid rv cv now,
      ?_, ?_, ?_, createdMessageDoc_createdAt ef u cid uid rv cv now,
      ?_, ?_, ?_⟩
  · simp only [create_message, hrole, hcont] at h
    cases hconv : get_conversation
        (upsertItem st (createdMessageDoc ef u cid uid rv cv now)) uid cid with
    | none =>
      rw [hconv] at h
      simp only [Except.ok.injEq, Prod.mk.injEq] at h
      rw [← h.2]
      exact readItem_upsert_self st _ u hmsgid
    | some conversation =>
      rw [hconv] at h
      simp only [Except.ok.injEq, Prod.mk.injEq] at h
      rw [← h.2]
      have hcid : lget "id" conversation = some (DValue.s cid) := by
        have hpc : isConversationOf uid cid conversation = true :=
          List.find?_some hconv
        simp only [isConversationOf, docIdIs, docId, Bool.and_eq_true,
          beq_iff_eq] at hpc
        exact hpc.1.1
      rw [readItem_upsert_ne]
      · exact readItem_upsert_self st _ u hmsgid
      · cases hca : lget "createdAt" (createdMessageDoc ef u cid uid rv cv now) with
        | none =>
          simp only [docId, hca]
          rw [hcid]
          intro hc
          exact hne (by injection hc with hc2; injection hc2 with hc3; exact hc3.symm)
        | some ts =>
          simp only [docId, hca]
          rw [lget_lset_ne "id" "updatedAt" _ _ (by decide), hcid]
          intro hc
          exact hne (by injection hc with hc2; injection hc2 with hc3; exact hc3.symm)
  · apply lget_eq_none_of_not_mem
    rw [createdMessageDoc_keys]
    cases ef <;> decide
  · apply lget_eq_none_of_not_mem
    rw [createdMessageDoc_keys]
    cases ef <;> decide
  · apply lget_eq_none_of_not_mem
    rw [createdMessageDoc_keys]
    cases ef <;> decide
  · cases ef <;> simp [createdMessageDoc, lget]
  · cases ef <;> simp [createdMessageDoc, lget]
  · cases ef <;> simp [createdMessageDoc, lget]

/-- C10 witness: a concrete input message carrying `name`, `function_call`,
`context` and a caller-supplied `createdAt`, all discarded. -/
theorem c10_witness :
    readItem
        (upsertItem (upsertItem [sampleConversation]
            (createdMessageDoc true "m1" "c1" "alice" (DValue.s "user")
              (DValue.s "hi") "t1"))
          (lset "updatedAt" (DValue.s "t1") sampleConversation))
        "m1"
      = some (createdMessageDoc true "m1" "c1" "alice" (DValue.s "user")
          (DValue.s "hi") "t1") ∧
    (createdMessageDoc true "m1" "c1" "alice" (DValue.s "user")
        (DValue.s "hi") "t1").map Prod.fst =
      ["id", "type", "userId", "createdAt", "updatedAt", "conversationId",
       "role", "content"] ++ (if true then ["feedback"] else []) ∧
    lget "name" (createdMessageDoc true "m1" "c1" "alice" (DValue.s "user")
      (DValue.s "hi") "t1") = none ∧
    lget "function_call" (createdMessageDoc true "m1" "c1" "alice"
      (DValue.s "user") (DValue.s "hi") "t1") = none ∧
    lget "context" (createdMessageDoc true "m1" "c1" "alice" (DValue.s "user")
      (DValue.s "hi") "t1") = none ∧
    lget "createdAt" (createdMessageDoc true "m1" "c1" "alice"
      (DValue.s "user") (DValue.s "hi") "t1") = some (DValue.s "t1") ∧
    lget "updatedAt" (createdMessageDoc true "m1" "c1" "alice"
      (DValue.s "user") (DValue.s "hi") "t1") = some (DValue.s "t1") ∧
    lget "role" (createdMessageDoc true "m1" "c1" "alice" (DValue.s "user")
      (DValue.s "hi") "t1") = some (DValue.s "user") ∧
    lget "content" (createdMessageDoc true "m1" "c1" "alice" (DValue.s "user")
      (DValue.s "hi") "t1") = some (DValue.s "hi") :=
  c10_persisted_message_fields true [sampleConversation] "m1" "c1" "alice"
    sampleUserInput "t1" (DValue.s "user") (DValue.s "hi")
    (CMResult.ok (createdMessageDoc true "m1" "c1" "alice" (DValue.s "user")
      (DValue.s "hi") "t1"))
    (upsertItem (upsertItem [sampleConversation]
        (createdMessageDoc true "m1" "c1" "alice" (DValue.s "user")
          (DValue.s "hi") "t1"))
      (lset "updatedAt" (DValue.s "t1") sampleConversation))
    (by rfl) (by rfl) (by decide) (by rfl)

/-! ## C6: feedback update on another user's message -/

def aliceMessage : Doc :=
  [("id", DValue.s "m1"), ("type", DValue.s "message"),
   ("userId", DValue.s "alice"), ("createdAt", DValue.s "t0"),
   ("updatedAt", DValue.s "t0"), ("conversationId", DValue.s "c1"),
   ("role", DValue.s "assistant"), ("content", DValue.s "hello"),
   ("feedback", DValue.s "")]

/-- C6: evaluation at the failing input.  The store holds one message owned
by `alice`; the feedback-update request comes from `bob`.  The claim says a
not-found or forbidden outcome with no modification; the code returns 200
and the other user's message is modified (`feedback` set to the requested
value, `updatedAt` advanced), because `update_message_feedback` reads the
item by id alone and never consults the requesting user's id. -/
theorem c6_cross_user_feedback_update :
    (update_message_route [aliceMessage] "bob" "m1" "positive" "t1").1 = 200 ∧
    ((update_message_route [aliceMessage] "bob" "m1" "positive" "t1").2.head?.bind
      (lget "feedback")) = some (DValue.s "positive") ∧
    ((update_message_route [aliceMessage] "bob" "m1" "positive" "t1").2.head?.bind
      (lget "userId")) = some (DValue.s "alice") ∧
    lget "userId" aliceMessage = some (DValue.s "alice") ∧
    "bob" ≠ "alice" := by
  refine ⟨by rfl, by rfl, by rfl, by rfl, by decide⟩

/-! ## C8: deleting an absent conversation succeeds -/

theorem mem_delete_messages_store (msgs : List Doc) (st : Store) (x : Doc)
    (hx : x ∈ msgs.foldl (fun s m =>
      match lget "id" m with
      | some (DValue.s i) => removeItem s i
      | _ => s) st) : x ∈ st := by
  induction msgs generalizing st with
  | nil => exact hx
  | cons m rest ih =>
    have step := ih _ hx
    revert step
    change x ∈ (match lget "id" m with
      | some (DValue.s i) => removeItem st i
      | _ => st) → x ∈ st
    cases lget "id" m with
    | none => exact fun hs => hs
    | some v =>
      cases v with
      | s i => exact fun hs => List.mem_of_mem_filter hs
      | null => exact fun hs => hs

theorem readItem_delete_messages_none (st : Store) (conversation_id user_id cid : String)
    (h : readItem st cid = none) :
    readItem (delete_messages st conversation_id user_id).2 cid = none := by
  have hall : ∀ x ∈ st, ¬docIdIs cid x = true := by
    intro x hx
    exact List.find?_eq_none.mp h x hx
  apply List.find?_eq_none.mpr
  intro x hx
  apply hall
  revert hx
  show x ∈ (delete_messages st conversation_id user_id).2 → x ∈ st
  unfold delete_messages
  by_cases hm : get_messages st user_id conversation_id ≠ []
  · rw [if_pos hm]
    exact fun hx => mem_delete_messages_store _ _ _ hx
  · rw [if_neg hm]
    exact fun hx => hx

/-- C8: for every conversation id absent from the store, the store-level
delete returns `True` (success, never an error), leaves the store unchanged,
and the `/history/delete` route returns 200. -/
theorem c8_delete_missing_conversation_succeeds (st : Store)
    (user_id conversation_id : String)
    (habsent : readItem st conversation_id = none)
    (hcid : conversation_id ≠ "") :
    (delete_conversation_db st user_id conversation_id).1 = DelResult.success ∧
    (delete_conversation_db st user_id conversation_id).2 = st ∧
    (delete_conversation_route st user_id conversation_id).1 = 200 := by
  refine ⟨?_, ?_, ?_⟩
  · unfold delete_conversation_db
    rw [habsent]
  · unfold delete_conversation_db
    rw [habsent]
  · unfold delete_conversation_route
    rw [if_neg hcid]

/-- C8 witness: deleting a conversation id absent from a store holding one
unrelated message. -/
theorem c8_witness :
    (delete_conversation_db [aliceMessage] "alice" "c9").1 = DelResult.success ∧
    (delete_conversation_db [aliceMessage] "alice" "c9").2 = [aliceMessage] ∧
    (delete_conversation_route [aliceMessage] "alice" "c9").1 = 200 :=
  c8_delete_missing_conversation_succeeds [aliceMessage] "alice" "c9"
    (by rfl) (by decide)

/-! ## `prepare_model_args` secret redaction (`app.py` lines 612-648)

The retrieval-augmentation payload `extra_body.data_sources[0].parameters`
is a dict of scalar settings that may hold secret values, an optional
`authentication` dict, and an optional `embedding_dependency` dict that may
itself hold an `authentication` dict.  `prepare_model_args` deep-copies the
request, masks secrets in the copy for the debug log, and returns the
original object to be sent to the provider. -/

structure EmbeddingDependency : Type where
  authentication : Option (List (String × String))
deriving DecidableEq, Repr

structure DataSourceParameters : Type where
  top : List (String × String)
  authentication : Option (List (String × String))
  embedding_dependency : Option EmbeddingDependency
deriving DecidableEq, Repr

def secret_params : List String :=
  ["key", "connection_string", "embedding_key", "encoded_api_key", "api_key"]

def secretMask : String := "*****"

/-- Python truthiness of `parameters.get(secret_param)`: absent (`None`) and
the empty string are falsy. -/
def truthy (v : Option String) : Bool :=
  match v with
  | some str => !(str == "")
  | none => false

/-- The top-level loop (lines 614-627): each secret parameter whose current
value is truthy is overwritten with the mask. -/
def redactStep (t : List (String × String)) (sp : String) : List (String × String) :=
  if truthy (lget sp t) then lset sp secretMask t else t

def redactTopLevel (t : List (String × String)) : List (String × String) :=
  secret_params.foldl redactStep t

/-- The `authentication` loops (lines 628-635 and 636-644): every present
field whose key is a secret parameter is overwritten with the mask,
regardless of its value. -/
def redactAuthBlock (a : List (String × String)) : List (String × String) :=
  a.map (fun kv => if secret_params.contains kv.1 then (kv.1, secretMask) else kv)

def redactDataSourceParameters (p : DataSourceParameters) : DataSourceParameters :=
  { top := redactTopLevel p.top,
    authentication := p.authentication.map redactAuthBlock,
    embedding_dependency := p.embedding_dependency.map
      (fun e => { e with authentication := e.authentication.map redactAuthBlock }) }

/-- `prepare_model_args`' final lines: the pair (object sent to the
provider, redacted copy used only for the debug log). -/
def prepare_model_args_logged (p : DataSourceParameters) :
    DataSourceParameters × DataSourceParameters :=
  (p, redactDataSourceParameters p)

/-- C5 (counterexample): a secret field present at top level with an empty
value is not replaced by the mask (the truthiness check skips it), so the
claim's "each such present field being replaced by the fixed mask" fails. -/
theorem c5_counterexample :
    lget "key" (redactDataSourceParameters
        (DataSourceParameters.mk [("key", "")] none none)).top = some "" ∧
    some "" ≠ some secretMask ∧
    "key" ∈ secret_params := by
  refine ⟨by rfl, by decide, by decide⟩

def topFieldRedacted (sp : String) (t : List (String × String)) : Prop :=
  lget sp t = none ∨ lget sp t = some "" ∨ lget sp t = some secretMask

theorem redactStep_establishes (t : List (String × String)) (sp : String) :
    topFieldRedacted sp (redactStep t sp) := by
  unfold redactStep
  by_cases h : truthy (lget sp t)
  · rw [if_pos h]
    right; right
    exact lget_lset_self sp secretMask t
  · rw [if_neg h]
    cases hv : lget sp t with
    | none => left; exact hv
    | some str =>
      rw [hv] at h
      have hstr : str = "" := by
        by_contra hne
        exact h (by simp [truthy, hne])
      right; left; rw [hv, hstr]

theorem redactStep_preserves (t : List (String × String)) (sp sp' : String)
    (h : topFieldRedacted sp t) : topFieldRedacted sp (redactStep t sp') := by
  unfold redactStep
  by_cases ht : truthy (lget sp' t)
  · rw [if_pos ht]
    by_cases hss : sp = sp'
    · subst hss
      right; right
      exact lget_lset_self sp secretMask t
    · unfold topFieldRedacted
      rw [lget_lset_ne sp sp' _ _ hss]
      exact h
  · rw [if_neg ht]
    exact h

theorem foldl_redactStep_preserves (sps : List String)
    (t : List (String × String)) (sp : String) (h : topFieldRedacted sp t) :
    topFieldRedacted sp (sps.foldl redactStep t) := by
  induction sps generalizing t with
  | nil => exact h
  | cons s rest ih => exact ih _ (redactStep_preserves t sp s h)

theorem redactTopLevel_ok (t : List (String × String)) (sp : String)
    (h : sp ∈ secret_params) : topFieldRedacted sp (redactTopLevel t) := by
  unfold redactTopLevel
  have general : ∀ (sps : List String) (t : List (String × String)),
      sp ∈ sps → topFieldRedacted sp (sps.foldl redactStep t) := by
    intro sps
    induction sps with
    | nil => intro t hmem; simp at hmem
    | cons s rest ih =>
      intro t hmem
      rcases List.mem_cons.mp hmem with h1 | h1
      · subst h1
        exact foldl_redactStep_preserves rest _ sp (redactStep_establishes t sp)
      · exact ih _ h1
  exact general secret_params t h

theorem lget_redactAuthBlock (a : List (String × String)) (sp : String)
    (hsp : secret_params.contains sp = true) (v : String)
    (hv : lget sp (redactAuthBlock a) = some v) : v = secretMask := by
  induction a with
  | nil => simp [redactAuthBlock, lget] at hv
  | cons kv rest ih =>
    by_cases hk : kv.1 == sp
    · have hkeq : kv.1 = sp := by simpa using hk
      simp only [redactAuthBlock, List.map_cons] at hv
      rw [hkeq, hsp] at hv
      simp only [if_true, lget] at hv
      rw [show (sp == sp) = true by simp] at hv
      simp at hv
      exact hv.symm
    · simp only [redactAuthBlock, List.map_cons] at hv
      by_cases hc : secret_params.contains kv.1
      · rw [if_pos hc] at hv
        simp only [lget] at hv
        rw [show (kv.1 == sp) = false by simpa using hk] at hv
        simp only [Bool.false_eq_true, if_false] at hv
        exact ih hv
      · rw [if_neg hc] at hv
        simp only [lget] at hv
        rw [show (kv.1 == sp) = false by simpa using hk] at hv
        simp only [Bool.false_eq_true, if_false] at hv
        exact ih hv

/-- C5 (amended): the redacted copy produced for diagnostic logging holds,
for every secret field name, no value other than the mask or the empty
string: at top level a present field with a non-empty value is replaced by
the fixed mask (a present field with an empty value is left as is), and
inside the `authentication` and `embedding_dependency.authentication`
blocks every present secret field is replaced by the mask unconditionally;
the object actually sent to the provider is the unredacted original. -/
theorem c5_redacted_copy_no_secret (p : DataSourceParameters) (sp : String)
    (hsp : sp ∈ secret_params) :
    (prepare_model_args_logged p).1 = p ∧
    topFieldRedacted sp (prepare_model_args_logged p).2.top ∧
    (∀ a v, (prepare_model_args_logged p).2.authentication = some a →
      lget sp a = some v → v = secretMask) ∧
    (∀ e v, (prepare_model_args_logged p).2.embedding_dependency = some e →
      ∀ a, e.authentication = some a → lget sp a = some v → v = secretMask) := by
  have hc : secret_params.contains sp = true := List.elem_iff.mpr hsp
  refine ⟨rfl, ?_, ?_, ?_⟩
  · exact redactTopLevel_ok p.top sp hsp
  · intro a v ha hv
    simp only [prepare_model_args_logged, redactDataSourceParameters] at ha
    cases hpa : p.authentication with
    | none => rw [hpa] at ha; simp at ha
    | some a0 =>
      rw [hpa] at ha
      simp only [Option.map_some'] at ha
      injection ha with ha2
      rw [← ha2] at hv
      exact lget_redactAuthBlock a0 sp hc v hv
  · intro e v he a ha hv
    simp only [prepare_model_args_logged, redactDataSourceParameters] at he
    cases hpe : p.embedding_dependency with
    | none => rw [hpe] at he; simp at he
    | some e0 =>
      rw [hpe] at he
      simp only [Option.map_some'] at he
      injection he with he2
      rw [← he2] at ha
      simp only at ha
      cases hea : e0.authentication with
      | none => rw [hea] at ha; simp at ha
      | some a0 =>
        rw [hea] at ha
        simp only [Option.map_some'] at ha
        injection ha with ha2
        rw [← ha2] at hv
        exact lget_redactAuthBlock a0 sp hc v hv

/-- C5 witness at a concrete payload holding secrets at all three levels. -/
theorem c5_witness :
    (prepare_model_args_logged (DataSourceParameters.mk
        [("endpoint", "https-example"), ("key", "topsecret")]
        (some [("type", "api_key"), ("key", "authsecret")])
        (some (EmbeddingDependency.mk (some [("api_key", "embsecret")]))))).1
      = DataSourceParameters.mk
        [("endpoint", "https-example"), ("key", "topsecret")]
        (some [("type", "api_key"), ("key", "authsecret")])
        (some (EmbeddingDependency.mk (some [("api_key", "embsecret")]))) ∧
    topFieldRedacted "key" (prepare_model_args_logged (DataSourceParameters.mk
        [("endpoint", "https-example"), ("key", "topsecret")]
        (some [("type", "api_key"), ("key", "authsecret")])
        (some (EmbeddingDependency.mk (some [("api_key", "embsecret")]))))).2.top ∧
    (∀ a v, (prepare_model_args_logged (DataSourceParameters.mk
        [("endpoint", "https-example"), ("key", "topsecret")]
        (some [("type", "api_key"), ("key", "authsecret")])
        (some (EmbeddingDependency.mk
          (some [("api_key", "embsecret")]))))).2.authentication = some a →
      lget "key" a = some v → v = secretMask) ∧
    (∀ e v, (prepare_model_args_logged (DataSourceParameters.mk
        [("endpoint", "https-example"), ("key", "topsecret")]
        (some [("type", "api_key"), ("key", "authsecret")])
        (some (EmbeddingDependency.mk
          (some [("api_key", "embsecret")]))))).2.embedding_dependency = some e →
      ∀ a, e.authentication = some a → lget "key" a = some v → v = secretMask) :=
  c5_redacted_copy_no_secret
    (DataSourceParameters.mk
      [("endpoint", "https-example"), ("key", "topsecret")]
      (some [("type", "api_key"), ("key", "authsecret")])
      (some (EmbeddingDependency.mk (some [("api_key", "embsecret")]))))
    "key" (by decide)

/-! ## Buffered completion path (`app.py` lines 428-442, 684-719, 743-768)

`openai_remote_azure_function_call` posts `{tool_name, tool_arguments}` to
the function endpoint and returns its text; it checks only the global
enabled flag, never the tool catalog.  The endpoint is modelled as a pure
function from tool name and argument string to response text, and each
performed invocation is recorded as a `(name, arguments)` pair.
`format_non_streaming_response` lives in `backend/utils.py`, which is not
among the source files; it is taken as an opaque formatting function. -/

structure BToolCall : Type where
  name : String
  arguments : String
deriving DecidableEq, Repr

/-- `response.choices[0].message`, reduced to the fields the orchestration
reads: the role and the (possibly empty) tool-call list; a Python `None`
`tool_calls` and an empty list are both falsy and are modelled as `[]`. -/
structure BMessage : Type where
  role : String
  tool_calls : List BToolCall
deriving DecidableEq, Repr

structure BResponse : Type where
  choices : List BMessage
deriving DecidableEq, Repr

/-- A message appended to the conversation by `process_function_call`:
either the assistant's call descriptor (content `None`) or the function
result. -/
inductive BFnMsg : Type
  | assistantCall (role name arguments : String)
  | functionResult (name content : String)
deriving DecidableEq, Repr

/-- `process_function_call` (lines 684-719) on `response.choices[0].message`:
skips tool calls whose name is not in the available-tools catalog
(`continue`), invokes the rest in order via the remote endpoint, and
appends an assistant-call/function-result message pair per invoked call.
Returns `none` (Python `None`) when the response carries no tool calls.
The second component records the invocations actually performed. -/
def process_function_call (availableTools : List String)
    (endpoint : String → String → String) (m : BMessage) :
    Option (List BFnMsg) × List (String × String) :=
  if m.tool_calls ≠ [] then
    let out := m.tool_calls.foldl
      (fun (acc : List BFnMsg × List (String × String)) tc =>
        if availableTools.contains tc.name then
          (acc.1 ++ [BFnMsg.assistantCall m.role tc.name tc.arguments,
                     BFnMsg.functionResult tc.name (endpoint tc.name tc.arguments)],
           acc.2 ++ [(tc.name, tc.arguments)])
        else acc)
      ([], [])
    (some out.1, out.2)
  else (none, [])

structure CCROut (F : Type) : Type where
  result : F
  resends : Nat
  appended : List BFnMsg
  calls : List (String × String)

/-- `complete_chat_request` (lines 743-768): the promptflow branch formats
the promptflow response; otherwise the first response is formatted, and
when function calling is enabled and `process_function_call` returns a
non-empty message list, the messages are appended to the conversation, the
request is re-sent exactly once, and the second response's formatting
replaces the first.  `resends` counts the extra round trips, `appended` the
messages added to `request_body["messages"]`, and `calls` the tool
invocations performed. -/
def complete_chat_request {F : Type} (fmt : BResponse → F) (pfResult : F)
    (use_promptflow enabled : Bool) (availableTools : List String)
    (endpoint : String → String → String) (resp1 resp2 : BResponse) :
    Except String (CCROut F) :=
  if use_promptflow then Except.ok ⟨pfResult, 0, [], []⟩
  else
    let r1 := fmt resp1
    if enabled then
      match resp1.choices.head? with
      | none => Except.error "IndexError"
      | some m =>
        let out := process_function_call availableTools endpoint m
        match out.1 with
        | some msgs =>
          if msgs ≠ [] then Except.ok ⟨fmt resp2, 1, msgs, out.2⟩
          else Except.ok ⟨r1, 0, [], out.2⟩
        | none => Except.ok ⟨r1, 0, [], out.2⟩
    else Except.ok ⟨r1, 0, [], []⟩

theorem process_function_call_fold (availableTools : List String)
    (endpoint : String → String → String) (role : String)
    (l : List BToolCall) (a : List BFnMsg) (b : List (String × String)) :
    l.foldl (fun (acc : List BFnMsg × List (String × String)) tc =>
        if availableTools.contains tc.name then
          (acc.1 ++ [BFnMsg.assistantCall role tc.name tc.arguments,
                     BFnMsg.functionResult tc.name (endpoint tc.name tc.arguments)],
           acc.2 ++ [(tc.name, tc.arguments)])
        else acc) (a, b)
      = (a ++ (l.filter (fun tc => availableTools.contains tc.name)).bind
          (fun tc => [BFnMsg.assistantCall role tc.name tc.arguments,
                      BFnMsg.functionResult tc.name (endpoint tc.name tc.arguments)]),
         b ++ (l.filter (fun tc => availableTools.contains tc.name)).map
          (fun tc => (tc.name, tc.arguments))) := by
  induction l generalizing a b with
  | nil => simp
  | cons tc rest ih =>
    by_cases hc : availableTools.contains tc.name
    · simp only [List.foldl_cons, hc, if_true, List.filter_cons_of_pos]
      rw [ih]
      simp [hc]
    · simp only [List.foldl_cons]
      rw [if_neg hc, List.filter_cons_of_neg (by simpa using hc)]
      exact ih a b

theorem process_function_call_spec (availableTools : List String)
    (endpoint : String → String → String) (m : BMessage) :
    process_function_call availableTools endpoint m
      = (if m.tool_calls = [] then none
         else some ((m.tool_calls.filter
            (fun tc => availableTools.contains tc.name)).bind
          (fun tc => [BFnMsg.assistantCall m.role tc.name tc.arguments,
                      BFnMsg.functionResult tc.name (endpoint tc.name tc.arguments)])),
         (m.tool_calls.filter (fun tc => availableTools.contains tc.name)).map
          (fun tc => (tc.name, tc.arguments))) := by
  unfold process_function_call
  by_cases h : m.tool_calls = []
  · simp [h]
  · rw [if_pos (by simpa using h), if_neg h]
    rw [process_function_call_fold]
    simp

/-- C4: for every buffered completion call, at most one re-submission round
trip is performed; and when the first response's first choice carries a
non-empty tool-call list whose names are all registered, each of its tool
calls is invoked exactly once (in order), exactly two conversation messages
are appended per call, the request is re-sent exactly once, the returned
result is the second response's formatting (never the first), and the
invocations performed are exactly those of the first response — tool calls
of the second response are never executed. -/
theorem c4_buffered_single_resubmission {F : Type} (fmt : BResponse → F)
    (pfResult : F) (use_promptflow enabled : Bool)
    (availableTools : List String) (endpoint : String → String → String)
    (resp1 resp2 : BResponse) (m : BMessage)
    (hm : resp1.choices.head? = some m) :
    (∀ out, complete_chat_request fmt pfResult use_promptflow enabled
        availableTools endpoint resp1 resp2 = Except.ok out →
      out.resends ≤ 1) ∧
    (use_promptflow = false → enabled = true → m.tool_calls ≠ [] →
      (∀ tc ∈ m.tool_calls, availableTools.contains tc.name = true) →
      complete_chat_request fmt pfResult use_promptflow enabled
          availableTools endpoint resp1 resp2
        = Except.ok ⟨fmt resp2, 1,
            m.tool_calls.bind (fun tc =>
              [BFnMsg.assistantCall m.role tc.name tc.arguments,
               BFnMsg.functionResult tc.name (endpoint tc.name tc.arguments)]),
            m.tool_calls.map (fun tc => (tc.name, tc.arguments))⟩) := by
  constructor
  · intro out hout
    simp only [complete_chat_request] at hout
    split at hout
    · injection hout with h1
      rw [← h1]
      exact Nat.zero_le 1
    · split at hout
      · split at hout
        · exact absurd hout (by simp)
        · split at hout
          · split at hout
            · injection hout with h1
              rw [← h1]
            · injection hout with h1
              rw [← h1]
              exact Nat.zero_le 1
          · injection hout with h1
            rw [← h1]
            exact Nat.zero_le 1
      · injection hout with h1
        rw [← h1]
        exact Nat.zero_le 1
  · intro hpf hen htc hreg
    have hfilter : m.tool_calls.filter
        (fun tc => availableTools.contains tc.name) = m.tool_calls :=
      List.filter_eq_self.mpr hreg
    have hbind : m.tool_calls.bind (fun tc =>
        [BFnMsg.assistantCall m.role tc.name tc.arguments,
         BFnMsg.functionResult tc.name (endpoint tc.name tc.arguments)]) ≠ [] := by
      cases hl : m.tool_calls with
      | nil => exact absurd hl htc
      | cons t rest => simp
    unfold complete_chat_request
    rw [if_neg (by simp [hpf]), if_pos hen, hm]
    simp only
    rw [process_function_call_spec, hfilter]
    simp only [if_neg htc]
    rw [if_pos hbind]
/-- C4 witness: a buffered call whose first response asks for the registered
tool `lookup`; the endpoint echoes a fixed result. -/
theorem c4_witness :
    (∀ out, complete_chat_request (fun r => r) (BResponse.mk []) false true
        ["lookup"] (fun n a => n ++ "-result")
        (BResponse.mk [BMessage.mk "assistant" [BToolCall.mk "lookup" "q-status"]])
        (BResponse.mk [BMessage.mk "assistant" []]) = Except.ok out →
      out.resends ≤ 1) ∧
    (false = false → true = true →
      (BMessage.mk "assistant" [BToolCall.mk "lookup" "q-status"]).tool_calls ≠ [] →
      (∀ tc ∈ (BMessage.mk "assistant"
          [BToolCall.mk "lookup" "q-status"]).tool_calls,
        (["lookup"] : List String).contains tc.name = true) →
      complete_chat_request (fun r => r) (BResponse.mk []) false true
          ["lookup"] (fun n a => n ++ "-result")
          (BResponse.mk [BMessage.mk "assistant" [BToolCall.mk "lookup" "q-status"]])
          (BResponse.mk [BMessage.mk "assistant" []])
        = Except.ok ⟨BResponse.mk [BMessage.mk "assistant" []], 1,
            (BMessage.mk "assistant" [BToolCall.mk "lookup" "q-status"]).tool_calls.bind
              (fun tc => [BFnMsg.assistantCall
                  (BMessage.mk "assistant" [BToolCall.mk "lookup" "q-status"]).role
                  tc.name tc.arguments,
                BFnMsg.functionResult tc.name
                  ((fun n a => n ++ "-result") tc.name tc.arguments)]),
            (BMessage.mk "assistant" [BToolCall.mk "lookup" "q-status"]).tool_calls.map
              (fun tc => (tc.name, tc.arguments))⟩) :=
  c4_buffered_single_resubmission (fun r => r) (BResponse.mk []) false true
    ["lookup"] (fun n a => n ++ "-result")
    (BResponse.mk [BMessage.mk "assistant" [BToolCall.mk "lookup" "q-status"]])
    (BResponse.mk [BMessage.mk "assistant" []])
    (BMessage.mk "assistant" [BToolCall.mk "lookup" "q-status"])
    (by rfl)

/-! ## Streaming tool-call accumulation
(`app.py` lines 770-831 and `stream_chat_request` lines 834-862)

A streamed chunk's delta carries `tool_calls`: either Python `None`
(`Option.none`), or a list of fragments, each with an `id` (empty string
models a falsy/missing id), a function `name` and a function `arguments`
string (`""` models both `None` and the empty string, which the code treats
alike).  The remote function endpoint is again a pure function; every
invocation performed is recorded as a `(name, arguments)` pair. -/

structure ToolCall : Type where
  tool_id : String
  tool_name : String
  tool_arguments : String
deriving DecidableEq, Repr

structure ToolCallFragment : Type where
  id : String
  name : String
  arguments : String
deriving DecidableEq, Repr

structure ChunkDelta : Type where
  tool_calls : Option (List ToolCallFragment)
deriving DecidableEq, Repr

structure CompletionChunk : Type where
  choices : List ChunkDelta
deriving DecidableEq, Repr

/-- A message appended to `function_messages` by the streaming path: the
assistant call descriptor (content `None`) or the function result, which
additionally carries the tool call id. -/
inductive FnMsg : Type
  | assistantCall (name arguments : String)
  | functionResult (tool_call_id name content : String)
deriving DecidableEq, Repr

structure AzureOpenaiFunctionCallStreamState : Type where
  tool_calls : List ToolCall
  tool_name : String
  tool_arguments_stream : String
  current_tool_call : Option ToolCall
  function_messages : List FnMsg
  streaming_state : String
deriving DecidableEq, Repr

def initStreamState : AzureOpenaiFunctionCallStreamState :=
  ⟨[], "", "", none, [], "INITIAL"⟩

/-- The body of the per-fragment loop (lines 787-802).  A fragment with a
truthy id first flushes the call being accumulated — appending the
fragment's own argument text to the buffer, finalising the current call's
arguments from the buffer and resetting buffer and name — then starts a new
current call whose name falls back to the stored `tool_name` when that is
non-empty (it never is: nothing ever sets it).  A fragment without an id
appends its argument text to the buffer. -/
def processToolCallFragment (s : AzureOpenaiFunctionCallStreamState)
    (f : ToolCallFragment) : AzureOpenaiFunctionCallStreamState :=
  if f.id ≠ "" then
    let s1 :=
      (match s.current_tool_call with
      | some cur =>
        let stream := s.tool_arguments_stream ++ f.arguments
        { s with
          tool_calls := s.tool_calls ++ [{ cur with tool_arguments := stream }],
          tool_arguments_stream := "",
          tool_name := "" }
      | none => s)
    { s1 with current_tool_call :=
        (some ⟨f.id, (if s1.tool_name = "" then f.name else s1.tool_name), ""⟩) }
  else
    { s with tool_arguments_stream := s.tool_arguments_stream ++ f.arguments }

def toolCallPair (tc : ToolCall) : String × String :=
  (tc.tool_name, tc.tool_arguments)

/-- `process_function_call_stream` (lines 780-831).  Returns the updated
state, the Python return value (`none` models Python `None`: the
tool-fragment branch and the no-choices case fall off the function), and
the invocations performed in this step.  Completing with no call in
progress subscripts `None` in Python (`TypeError`), modelled as
`Except.error`. -/
def process_function_call_stream (endpoint : String → String → String)
    (chunk : CompletionChunk) (s : AzureOpenaiFunctionCallStreamState) :
    Except String (AzureOpenaiFunctionCallStreamState × Option String
      × List (String × String)) :=
  match chunk.choices.head? with
  | none => Except.ok (s, none, [])
  | some delta =>
    match delta.tool_calls with
    | some frags =>
      if frags ≠ [] ∧ (s.streaming_state = "INITIAL" ∨ s.streaming_state = "STREAMING")
      then
        let s0 := { s with streaming_state := "STREAMING" }
        Except.ok (frags.foldl processToolCallFragment s0, none, [])
      else Except.ok (s, some s.streaming_state, [])
    | none =>
      if s.streaming_state = "STREAMING" then
        match s.current_tool_call with
        | none => Except.error "TypeError"
        | some cur =>
          let finished := { cur with tool_arguments := s.tool_arguments_stream }
          let allCalls := s.tool_calls ++ [finished]
          let msgs := allCalls.foldl (fun acc tc =>
            acc ++ [FnMsg.assistantCall tc.tool_name tc.tool_arguments,
                    FnMsg.functionResult tc.tool_id tc.tool_name
                      (endpoint tc.tool_name tc.tool_arguments)]) []
          Except.ok
            ({ s with
                tool_calls := allCalls,
                function_messages := s.function_messages ++ msgs,
                streaming_state := "COMPLETED" },
             some "COMPLETED",
             allCalls.map toolCallPair)
      else Except.ok (s, some s.streaming_state, [])

/-- One iteration of `generate` in `stream_chat_request` (lines 843-856):
feed the chunk to the accumulator; on `"INITIAL"` emit the chunk; on
`"COMPLETED"` extend the conversation with the accumulated function
messages, re-send the request and splice the continuation stream
(`resend` indexes the successive re-sends) into the output. -/
structure GenAcc : Type where
  state : AzureOpenaiFunctionCallStreamState
  emitted : List CompletionChunk
  requestMessages : List FnMsg
  resends : Nat
  calls : List (String × String)
deriving Repr

def initGenAcc : GenAcc := ⟨initStreamState, [], [], 0, []⟩

def generateStep (endpoint : String → String → String)
    (continuation : Nat → List CompletionChunk) (acc : GenAcc)
    (chunk : CompletionChunk) : Except String GenAcc :=
  (process_function_call_stream endpoint chunk acc.state).map (fun r =>
    let acc1 : GenAcc := { acc with state := r.1, calls := acc.calls ++ r.2.2 }
    let acc2 : GenAcc :=
      if r.2.1 = some "INITIAL"
      then { acc1 with emitted := acc1.emitted ++ [chunk] }
      else acc1
    if r.2.1 = some "COMPLETED" then
      { acc2 with
        requestMessages := acc2.requestMessages ++ r.1.function_messages,
        emitted := acc2.emitted ++ continuation acc2.resends,
        resends := acc2.resends + 1 }
    else acc2)

def stream_generate (endpoint : String → String → String)
    (continuation : Nat → List CompletionChunk)
    (chunks : List CompletionChunk) : Except String GenAcc :=
  chunks.foldlM (generateStep endpoint continuation) initGenAcc

def mkToolChunk (frags : List ToolCallFragment) : CompletionChunk :=
  ⟨[⟨some frags⟩]⟩

/-- A chunk whose delta carries no `tool_calls` field (Python `None`): the
implicit end-of-tool-call signal. -/
def streamEndChunk : CompletionChunk := ⟨[⟨none⟩]⟩

/-- C1: evaluation at the failing input.  The stream carries one tool call
(`f` with arguments `"a1"`), its completing chunk, and one further
choice-bearing chunk.  The tool is invoked exactly once, but the function
messages are appended twice (4 instead of 2) and the augmented request is
re-sent twice, because every chunk after completion returns `"COMPLETED"`
again. -/
theorem c1_resend_per_trailing_chunk :
    (stream_generate (fun n a => n ++ "-r") (fun _ => [])
        [mkToolChunk [⟨"t1", "f", ""⟩], mkToolChunk [⟨"", "", "a1"⟩],
         streamEndChunk, streamEndChunk]).map
      (fun acc => (acc.resends, acc.calls, acc.requestMessages.length))
      = Except.ok (2, [("f", "a1")], 4) ∧ (2 : Nat) ≠ 1 := by
  refine ⟨by rfl, by decide⟩

/-- C7 (counterexample): in the streaming path a tool call whose name is
not in the registered catalog (here `["lookup"]`) is still invoked — the
claim's "the tool is not invoked" fails for the streaming path, which
never consults the catalog. -/
theorem c7_counterexample :
    (stream_generate (fun n a => n ++ "-r") (fun _ => [])
        [mkToolChunk [⟨"t1", "ghost", ""⟩], streamEndChunk]).map
      (fun acc => acc.calls) = Except.ok [("ghost", "")] ∧
    ("ghost" ∈ (["lookup"] : List String)) = False := by
  refine ⟨by rfl, by simp⟩

/-- C7 (amended): in the buffered path, a tool call whose name is not in
the registered catalog is silently skipped — the invocations performed are
exactly those of the recognised calls, and no error is raised; in the
streaming path no catalog check exists: completing the stream invokes every
accumulated tool call, whatever its name. -/
theorem c7_unknown_tool_policy (availableTools : List String)
    (endpoint : String → String → String) (m : BMessage)
    (s : AzureOpenaiFunctionCallStreamState) (cur : ToolCall)
    (hs : s.streaming_state = "STREAMING")
    (hcur : s.current_tool_call = some cur) :
    (process_function_call availableTools endpoint m).2
      = (m.tool_calls.filter (fun tc => availableTools.contains tc.name)).map
        (fun tc => (tc.name, tc.arguments)) ∧
    (∃ s', process_function_call_stream endpoint streamEndChunk s
      = Except.ok (s', some "COMPLETED",
          (s.tool_calls ++ [{ cur with tool_arguments := s.tool_arguments_stream }]).map
            toolCallPair)) := by
  constructor
  · rw [process_function_call_spec]
  · unfold process_function_call_stream streamEndChunk
    simp only [List.head?]
    rw [if_pos hs, hcur]
    exact ⟨_, rfl⟩

/-- C7 witness: a buffered response mixing the registered `lookup` with the
unregistered `ghost` (only `lookup` is invoked), and a streaming state
accumulating an unregistered `ghost` call (invoked at completion). -/
theorem c7_witness :
    (process_function_call ["lookup"] (fun n a => n ++ "-r")
        (BMessage.mk "assistant"
          [BToolCall.mk "ghost" "g1", BToolCall.mk "lookup" "q1"])).2
      = ((BMessage.mk "assistant"
          [BToolCall.mk "ghost" "g1", BToolCall.mk "lookup" "q1"]).tool_calls.filter
            (fun tc => (["lookup"] : List String).contains tc.name)).map
          (fun tc => (tc.name, tc.arguments)) ∧
    (∃ s', process_function_call_stream (fun n a => n ++ "-r") streamEndChunk
        ⟨[], "", "g1", some ⟨"t1", "ghost", ""⟩, [], "STREAMING"⟩
      = Except.ok (s', some "COMPLETED",
          (([] : List ToolCall)
            ++ [{ (⟨"t1", "ghost", ""⟩ : ToolCall) with tool_arguments := "g1" }]).map
            toolCallPair)) :=
  c7_unknown_tool_policy ["lookup"] (fun n a => n ++ "-r")
    (BMessage.mk "assistant"
      [BToolCall.mk "ghost" "g1", BToolCall.mk "lookup" "q1"])
    ⟨[], "", "g1", some ⟨"t1", "ghost", ""⟩, [], "STREAMING"⟩
    ⟨"t1", "ghost", ""⟩ (by rfl) (by rfl)

/-! ## C2: chunking invariance of the tool-call accumulator -/

def runAccumulator (endpoint : String → String → String)
    (chunks : List CompletionChunk) (s : AzureOpenaiFunctionCallStreamState) :
    Except String AzureOpenaiFunctionCallStreamState :=
  chunks.foldlM (fun s c =>
    (process_function_call_stream endpoint c s).map (fun r => r.1)) s

/-- Run the accumulator over tool-fragment chunks partitioned as `parts`,
then the implicit end-of-section chunk, and read off the accumulated
`(tool_name, tool_arguments)` pairs. -/
def streamedToolCallPairs (endpoint : String → String → String)
    (parts : List (List ToolCallFragment)) :
    Except String (List (String × String)) :=
  (runAccumulator endpoint (parts.map mkToolChunk ++ [streamEndChunk])
      initStreamState).map
    (fun s => s.tool_calls.map toolCallPair)

/-- Written from the claim's words, independent of chunking: the sequence of
`(tool_name, tool_arguments)` pairs, where each new call identifier opens a
call named by its fragment and `tool_arguments` is the concatenation of the
following continuation fragments' argument text in arrival order. -/
def specPairsAux (name acc : String) :
    List ToolCallFragment → List (String × String)
  | [] => [(name, acc)]
  | f :: fs =>
    if f.id ≠ "" then (name, acc) :: specPairsAux f.name "" fs
    else specPairsAux name (acc ++ f.arguments) fs

def specToolCallPairs : List ToolCallFragment → List (String × String)
  | [] => []
  | f :: fs => specPairsAux f.name "" fs

theorem processToolCallFragment_streaming_state
    (s : AzureOpenaiFunctionCallStreamState) (f : ToolCallFragment) :
    (processToolCallFragment s f).streaming_state = s.streaming_state := by
  unfold processToolCallFragment
  by_cases h : f.id ≠ ""
  · rw [if_pos h]
    cases s.current_tool_call <;> rfl
  · rw [if_neg h]

theorem foldl_fragments_streaming_state (fs : List ToolCallFragment)
    (s : AzureOpenaiFunctionCallStreamState) :
    (fs.foldl processToolCallFragment s).streaming_state = s.streaming_state := by
  induction fs generalizing s with
  | nil => rfl
  | cons f fs ih =>
    rw [List.foldl_cons, ih, processToolCallFragment_streaming_state]

theorem set_streaming_self (s : AzureOpenaiFunctionCallStreamState)
    (h : s.streaming_state = "STREAMING") :
    { s with streaming_state := "STREAMING" } = s := by
  cases s
  simp only at h
  subst h
  rfl

theorem process_toolChunk (endpoint : String → String → String)
    (frags : List ToolCallFragment) (s : AzureOpenaiFunctionCallStreamState)
    (hf : frags ≠ [])
    (hs : s.streaming_state = "INITIAL" ∨ s.streaming_state = "STREAMING") :
    process_function_call_stream endpoint (mkToolChunk frags) s
      = Except.ok (frags.foldl processToolCallFragment
          { s with streaming_state := "STREAMING" }, none, []) := by
  unfold process_function_call_stream mkToolChunk
  simp only [List.head?]
  rw [if_pos ⟨hf, hs⟩]

theorem process_toolChunk_nil (endpoint : String → String → String)
    (s : AzureOpenaiFunctionCallStreamState) :
    process_function_call_stream endpoint (mkToolChunk []) s
      = Except.ok (s, some s.streaming_state, []) := by
  unfold process_function_call_stream mkToolChunk
  simp only [List.head?]
  rw [if_neg (by simp)]

theorem runAccumulator_cons (endpoint : String → String → String)
    (c : CompletionChunk) (cs : List CompletionChunk)
    (s : AzureOpenaiFunctionCallStreamState) :
    runAccumulator endpoint (c :: cs) s
      = (process_function_call_stream endpoint c s).map (fun r => r.1) >>=
          fun s1 => runAccumulator endpoint cs s1 := by
  rfl

theorem runAccumulator_toolChunks (endpoint : String → String → String)
    (parts : List (List ToolCallFragment))
    (s : AzureOpenaiFunctionCallStreamState)
    (hs : s.streaming_state = "INITIAL" ∨ s.streaming_state = "STREAMING") :
    runAccumulator endpoint (parts.map mkToolChunk) s
      = Except.ok (if parts.flatten = [] then s
          else parts.flatten.foldl processToolCallFragment
            { s with streaming_state := "STREAMING" }) := by
  induction parts generalizing s with
  | nil => rfl
  | cons p ps ih =>
    rw [List.map_cons, runAccumulator_cons]
    by_cases hp : p = []
    · subst hp
      rw [process_toolChunk_nil]
      show runAccumulator endpoint (ps.map mkToolChunk) s = _
      rw [ih s hs]
      simp
    · rw [process_toolChunk endpoint p s hp hs]
      show runAccumulator endpoint (ps.map mkToolChunk)
        (p.foldl processToolCallFragment
          { s with streaming_state := "STREAMING" }) = _
      have hs1state : (p.foldl processToolCallFragment
          { s with streaming_state := "STREAMING" }).streaming_state
          = "STREAMING" := by
        rw [foldl_fragments_streaming_state]
      rw [ih _ (Or.inr hs1state)]
      simp only [List.flatten_cons]
      by_cases hj : ps.flatten = []
      · rw [if_pos hj, hj, List.append_nil, if_neg hp]
      · rw [if_neg hj, if_neg (by simp [hp]), List.foldl_append,
            set_streaming_self _ hs1state]

theorem foldl_fragments_group (fs : List ToolCallFragment)
    (hargs : ∀ f ∈ fs, f.id ≠ "" → f.arguments = "")
    (tcs : List ToolCall) (cid cname acc : String) (msgs : List FnMsg)
    (flag : String) :
    ∃ cur',
      (fs.foldl processToolCallFragment
        ⟨tcs, "", acc, some ⟨cid, cname, ""⟩, msgs, flag⟩).current_tool_call
        = some cur' ∧
      ((fs.foldl processToolCallFragment
          ⟨tcs, "", acc, some ⟨cid, cname, ""⟩, msgs, flag⟩).tool_calls
        ++ [{ cur' with tool_arguments :=
          (fs.foldl processToolCallFragment
            ⟨tcs, "", acc, some ⟨cid, cname, ""⟩, msgs, flag⟩).tool_arguments_stream }]).map
          toolCallPair
        = tcs.map toolCallPair ++ specPairsAux cname acc fs := by
  induction fs generalizing tcs cid cname acc with
  | nil =>
    refine ⟨⟨cid, cname, ""⟩, rfl, ?_⟩
    simp [toolCallPair, specPairsAux]
  | cons f fs ih =>
    by_cases hfid : f.id ≠ ""
    · have harg : f.arguments = "" := hargs f (by simp) hfid
      rw [List.foldl_cons]
      have hstep : processToolCallFragment
          ⟨tcs, "", acc, some ⟨cid, cname, ""⟩, msgs, flag⟩ f
          = ⟨tcs ++ [⟨cid, cname, acc⟩], "", "",
             some ⟨f.id, f.name, ""⟩, msgs, flag⟩ := by
        simp [processToolCallFragment, hfid, harg]
      rw [hstep]
      obtain ⟨cur', h1, h2⟩ := ih
        (fun g hg hgid => hargs g (by simp [hg]) hgid)
        (tcs ++ [⟨cid, cname, acc⟩]) f.id f.name ""
      refine ⟨cur', h1, ?_⟩
      rw [h2]
      simp [toolCallPair, specPairsAux, hfid]
    · rw [List.foldl_cons]
      have hstep : processToolCallFragment
          ⟨tcs, "", acc, some ⟨cid, cname, ""⟩, msgs, flag⟩ f
          = ⟨tcs, "", acc ++ f.arguments, some ⟨cid, cname, ""⟩, msgs, flag⟩ := by
        simp [processToolCallFragment, hfid]
      rw [hstep]
      obtain ⟨cur', h1, h2⟩ := ih
        (fun g hg hgid => hargs g (by simp [hg]) hgid)
        tcs cid cname (acc ++ f.arguments)
      refine ⟨cur', h1, ?_⟩
      rw [h2]
      have : specPairsAux cname acc (f :: fs)
          = specPairsAux cname (acc ++ f.arguments) fs := by
        simp [specPairsAux, hfid]
      rw [this]

theorem process_end_toolCalls (endpoint : String → String → String)
    (s : AzureOpenaiFunctionCallStreamState) (cur : ToolCall)
    (hs : s.streaming_state = "STREAMING")
    (hcur : s.current_tool_call = some cur) :
    ∃ s', (process_function_call_stream endpoint streamEndChunk s).map
        (fun r => r.1) = Except.ok s' ∧
      s'.tool_calls = s.tool_calls
        ++ [{ cur with tool_arguments := s.tool_arguments_stream }] := by
  unfold process_function_call_stream streamEndChunk
  simp only [List.head?]
  rw [if_pos hs, hcur]
  exact ⟨_, rfl, rfl⟩

/-- C2: chunking invariance of the accumulator.  For every partition of a
tool-call fragment sequence into chunks — the sequence beginning with a
fragment that introduces a new call identifier, and fragments carrying a
new identifier carrying no argument text, as in the claim's fragment
alphabet — running the accumulator over the partitioned chunks followed by
the end-of-section chunk yields exactly the `(tool_name, tool_arguments)`
pairs computed by `specToolCallPairs` from the flat fragment sequence
alone: the result depends only on `parts.flatten`, not on the partition, and
each call's arguments are the concatenation of its continuation fragments
in arrival order. -/
theorem c2_accumulator_chunking_invariance
    (endpoint : String → String → String)
    (parts : List (List ToolCallFragment))
    (f0 : ToolCallFragment) (rest : List ToolCallFragment)
    (hjoin : parts.flatten = f0 :: rest)
    (hid0 : f0.id ≠ "")
    (hargs : ∀ f ∈ parts.flatten, f.id ≠ "" → f.arguments = "") :
    streamedToolCallPairs endpoint parts
      = Except.ok (specToolCallPairs parts.flatten) := by
  unfold streamedToolCallPairs
  have hsplit : runAccumulator endpoint
      (parts.map mkToolChunk ++ [streamEndChunk]) initStreamState
      = (runAccumulator endpoint (parts.map mkToolChunk) initStreamState) >>=
          fun s1 => runAccumulator endpoint [streamEndChunk] s1 := by
    unfold runAccumulator
    exact List.foldlM_append _ _ _ _
  rw [hsplit, runAccumulator_toolChunks endpoint parts initStreamState
    (Or.inl rfl)]
  rw [hjoin, if_neg (by simp)]
  have hf0 : processToolCallFragment
      { initStreamState with streaming_state := "STREAMING" } f0
      = ⟨[], "", "", some ⟨f0.id, f0.name, ""⟩, [], "STREAMING"⟩ := by
    simp [processToolCallFragment, hid0, initStreamState]
  rw [List.foldl_cons, hf0]
  have hargs' : ∀ f ∈ rest, f.id ≠ "" → f.arguments = "" := by
    intro f hf hfid
    exact hargs f (by rw [hjoin]; exact List.mem_cons_of_mem _ hf) hfid
  obtain ⟨cur', hcur, hpairs⟩ := foldl_fragments_group rest hargs'
    [] f0.id f0.name "" [] "STREAMING"
  have houtstate : (rest.foldl processToolCallFragment
      ⟨[], "", "", some ⟨f0.id, f0.name, ""⟩, [], "STREAMING"⟩).streaming_state
      = "STREAMING" := by
    rw [foldl_fragments_streaming_state]
  obtain ⟨s', hend, htc⟩ := process_end_toolCalls endpoint _ cur' houtstate hcur
  have hrun1 : runAccumulator endpoint [streamEndChunk]
      (rest.foldl processToolCallFragment
        ⟨[], "", "", some ⟨f0.id, f0.name, ""⟩, [], "STREAMING"⟩)
      = Except.ok s' := by
    unfold runAccumulator
    simp only [List.foldlM]
    rw [hend]
    rfl
  show (Except.ok (rest.foldl processToolCallFragment
      ⟨[], "", "", some ⟨f0.id, f0.name, ""⟩, [], "STREAMING"⟩) >>=
      fun s1 => runAccumulator endpoint [streamEndChunk] s1).map
      (fun s => s.tool_calls.map toolCallPair) = _
  rw [show (Except.ok (rest.foldl processToolCallFragment
      ⟨[], "", "", some ⟨f0.id, f0.name, ""⟩, [], "STREAMING"⟩) >>=
      fun s1 => runAccumulator endpoint [streamEndChunk] s1)
      = runAccumulator endpoint [streamEndChunk]
        (rest.foldl processToolCallFragment
          ⟨[], "", "", some ⟨f0.id, f0.name, ""⟩, [], "STREAMING"⟩) from rfl]
  rw [hrun1]
  show Except.ok (s'.tool_calls.map toolCallPair) = _
  rw [htc, hpairs]
  rfl

/-- C2 witness: the fragments `[new call t1/f, args "ab", args "cd"]`
partitioned into two chunks, with the argument text split across the chunk
boundary. -/
theorem c2_witness :
    streamedToolCallPairs (fun n a => n ++ "-r")
        [[⟨"t1", "f", ""⟩, ⟨"", "", "ab"⟩], [⟨"", "", "cd"⟩]]
      = Except.ok (specToolCallPairs
          ([[⟨"t1", "f", ""⟩, ⟨"", "", "ab"⟩],
            [(⟨"", "", "cd"⟩ : ToolCallFragment)]] : List (List ToolCallFragment)).flatten) :=
  c2_accumulator_chunking_invariance (fun n a => n ++ "-r")
    [[⟨"t1", "f", ""⟩, ⟨"", "", "ab"⟩], [⟨"", "", "cd"⟩]]
    ⟨"t1", "f", ""⟩ [⟨"", "", "ab"⟩, ⟨"", "", "cd"⟩]
    (by rfl) (by decide) (by decide)

end ChatApp
